import Mathlib

/-!
Verification development for the mc2 toolchain-container build tool
(sources: src/config.rs, src/config/mixin.rs, src/convert.rs, src/docker.rs,
src/main.rs).  Rust strings are modelled as Lean `String`/`List Char`,
`PathBuf` as a list of path components, machine integers as `Nat` with
explicit bounds or `% 2^w` where the source converts between widths.
External collaborators (the YAML parser, the file system, host-identity
lookup, the SHA-256 digest) are passed in as explicit function parameters,
exactly at the points where the source calls out to them.
-/

/-- ASCII whitespace test used by the model of Rust `str::trim`
(the source only ever trims lines of ASCII text). -/
def isWsChar (c : Char) : Bool :=
  c = ' ' || c = '\t' || c = '\r' || c = '\n'

/-- Model of Rust `str::trim` on the character list. -/
def trimChars (l : List Char) : List Char :=
  ((l.dropWhile isWsChar).reverse.dropWhile isWsChar).reverse

/-- Model of Rust `str::trim`. -/
def trimStr (s : String) : String :=
  String.mk (trimChars s.data)

/-- Model of `content.replace("\r\n", "\n")` (left-to-right,
non-overlapping, as in Rust `str::replace`). -/
def normalizeCrlf : List Char → List Char
  | [] => []
  | '\r' :: '\n' :: rest => '\n' :: normalizeCrlf rest
  | c :: rest => c :: normalizeCrlf rest

/-- Model of `content.replace("\r\n", "\n")` at `String` level. -/
def crlfToLf (s : String) : String :=
  String.mk (normalizeCrlf s.data)

/-- Model of Rust `str::split(sep)` for a one-character separator:
`"".split = [""]`, `":".split(':') = ["", ""]`, etc.  `List.splitOn`
has exactly these semantics. -/
def rustSplit (sep : Char) (s : String) : List String :=
  (s.data.splitOn sep).map String.mk

/-- Model of Rust `str::lines()`: split on `'\n'`, dropping one final
empty piece (Rust's iterator yields no line for a trailing newline). -/
def rustLines (s : String) : List String :=
  let parts := rustSplit '\n' s
  if parts.getLast? = some "" then parts.dropLast else parts

/-- Model of Rust `[String]::join(sep)` for a one-character separator. -/
def joinChar (sep : Char) (ls : List String) : String :=
  String.mk (List.intercalate [sep] (ls.map String.data))

/-- The decimal digit character for `n < 10` (Rust's `Display` digits). -/
def digitChar : Nat → Char
  | 0 => '0' | 1 => '1' | 2 => '2' | 3 => '3' | 4 => '4'
  | 5 => '5' | 6 => '6' | 7 => '7' | 8 => '8' | _ => '9'

/-- Fuel-driven decimal rendering (most significant digit first); with
fuel `> n` it is total, mirroring Rust's `Display` for unsigned integers. -/
def natToDecCharsAux : Nat → Nat → List Char
  | 0, _ => []
  | fuel + 1, n =>
    if n < 10 then [digitChar n]
    else natToDecCharsAux fuel (n / 10) ++ [digitChar (n % 10)]

/-- Model of Rust `Display` for unsigned integers: plain decimal digits. -/
def natToDecChars (n : Nat) : List Char :=
  natToDecCharsAux (n + 1) n

/-- Decimal rendering of a `Nat` as a `String` (Rust `format!("{}", n)`). -/
def natToDecStr (n : Nat) : String :=
  String.mk (natToDecChars n)

/-- The numeric value of a digit string, accumulated left to right —
the same fold Rust's integer `FromStr` performs. -/
def decValue (l : List Char) : Nat :=
  l.foldl (fun a c => a * 10 + (c.toNat - 48)) 0

/-- The optional leading `'+'` sign Rust's unsigned `FromStr` accepts. -/
def stripPlus : List Char → List Char
  | '+' :: rest => rest
  | l => l

/-- Model of Rust `u16::from_str`: an optional leading `'+'`, then one or
more ASCII digits, rejecting the empty string and values above `u16::MAX`
(Rust reports overflow during the fold; for digit strings that is
equivalent to the final-value bound used here). -/
def parseU16 (s : String) : Option Nat :=
  if (stripPlus s.data).isEmpty then none
  else if (stripPlus s.data).all Char.isDigit then
    if decValue (stripPlus s.data) ≤ 65535 then
      some (decValue (stripPlus s.data))
    else none
  else none

/-- `ParsePublishError` from src/config.rs (the `ParseIntError` payload of
the first variant is not modelled). -/
inductive ParsePublishError where
  | IntParseError
  | InvalidFormat
deriving DecidableEq, Repr

/-- `Publish` from src/config.rs.  `host_port`/`machine_port` are `u16` in
the source; the model uses `Nat`, and the parser enforces the `u16` bound. -/
structure Publish where
  host_ip : Option String
  host_port : Nat
  machine_port : Nat
deriving DecidableEq, Repr

/-- `Display for Publish`: `[host_ip:]host_port:machine_port`. -/
def Publish.render (p : Publish) : String :=
  (match p.host_ip with
    | some ip => ip ++ ":"
    | none => "")
  ++ natToDecStr p.host_port ++ ":" ++ natToDecStr p.machine_port

/-- `FromStr for Publish` (src/config.rs lines 100–124): split on `':'`;
with at least two fields, parse the last two as `u16` (an unparsable field
is an `IntParseError`), then accept exactly the two- and three-field
forms; anything else is `InvalidFormat`. -/
def Publish.fromStr (s : String) : Except ParsePublishError Publish :=
  let split := rustSplit ':' s
  if split.length ≥ 2 then
    match parseU16 (split.getD (split.length - 2) ""),
          parseU16 (split.getD (split.length - 1) "") with
    | some hp, some mp =>
      if split.length = 2 then
        .ok ⟨none, hp, mp⟩
      else if split.length = 3 then
        .ok ⟨some (split.getD 0 ""), hp, mp⟩
      else .error .InvalidFormat
    | _, _ => .error .IntParseError
  else .error .InvalidFormat

/-- `ParseVolumeError` from src/config.rs. -/
inductive ParseVolumeError where
  | InvalidFormat
deriving DecidableEq, Repr

/-- The option strings `FromStr for Volume` accepts. -/
def allowedVolOpts : List String := ["ro", "readonly", "volume-nocopy"]

/-- `Volume` from src/config.rs.  The source stores `PathBuf`s and
compares them componentwise; the model stores the identical raw text,
which the round-trip claims are about. -/
structure Volume where
  host_path : String
  machine_path : String
  opts : List String
deriving DecidableEq, Repr

/-- `Display for Volume`: `host_path:machine_path[:opt,...]`. -/
def Volume.render (v : Volume) : String :=
  v.host_path ++ ":" ++ v.machine_path
  ++ (if v.opts.isEmpty then "" else ":" ++ joinChar ',' v.opts)

/-- `FromStr for Volume` (src/config.rs lines 156–181): split on `':'`;
two or three fields, the third (when present) split on `','` into options
each of which must be in `allowedVolOpts`. -/
def Volume.fromStr (s : String) : Except ParseVolumeError Volume :=
  let splits := rustSplit ':' s
  if splits.length = 2 ∨ splits.length = 3 then
    let host_path := splits.getD 0 ""
    let machine_path := splits.getD 1 ""
    let opts := if splits.length = 3
      then rustSplit ',' (splits.getD 2 "")
      else []
    if opts.all (fun o => allowedVolOpts.contains o) then
      .ok ⟨host_path, machine_path, opts⟩
    else .error .InvalidFormat
  else .error .InvalidFormat

/-- `PathBuf` from the source, modelled as its list of components
(each component a nonempty string; `"/"` models the root component). -/
abbrev PathBuf := List String

/-- `MixinYaml` from src/config/mixin.rs.  `env` is a `HashMap` in the
source; it is modelled as an association list (the conversion never reads
it, see C7). -/
structure MixinYaml where
  base : Option String
  install : Option (List String)
  mixin : Option (List PathBuf)
  publish : Option (List Publish)
  volume : Option (List Volume)
  env : Option (List (String × String))
deriving DecidableEq, Repr

/-- `Default for MixinYaml`: every field absent. -/
def MixinYaml.default : MixinYaml :=
  ⟨none, none, none, none, none, none⟩

/-- `Mixin` from src/config/mixin.rs. -/
structure Mixin where
  path : PathBuf
  yaml : MixinYaml
  children : List Mixin
  script : Option String
deriving Repr

/-- The parse failures of `TryFrom<(&Path, BufReader<T>)> for Mixin`
(all `io::Error`s of kind `InvalidData` in the source). -/
inductive ParseErr where
  | emptyFile
  | missingClosing
  | badYaml (e : String)
deriving DecidableEq, Repr

/-- `TryFrom<(&Path, BufReader<T>)> for Mixin` (src/config/mixin.rs lines
92–169).  `py` is the external `serde_yaml::from_str` collaborator,
returning either a parsed `MixinYaml` or an error message.  CRLF is
normalized first; if the first line trims to `"---"`, the lines before the
next line that trims to `"---"` are handed to `py` and the rest is the
script; with no closing line the result is a format error; with no leading
delimiter the whole file is the script; an empty script is `none`; an
empty file is a format error. -/
def parseMixin (py : String → Except String MixinYaml) (path : PathBuf)
    (content : String) : Except ParseErr Mixin :=
  match rustLines (crlfToLf content) with
  | [] => .error .emptyFile
  | first :: rest =>
    if trimStr first = "---" then
      let cfg := rest.takeWhile (fun l => trimStr l ≠ "---")
      if cfg.length = rest.length then .error .missingClosing
      else
        match py (joinChar '\n' cfg) with
        | .error e => .error (.badYaml e)
        | .ok yaml =>
          let scriptRest := joinChar '\n' (rest.drop (cfg.length + 1))
          .ok ⟨path, yaml, [], if scriptRest = "" then none else some scriptRest⟩
    else
      let script := joinChar '\n' (first :: rest)
      .ok ⟨path, MixinYaml.default, [], if script = "" then none else some script⟩

/-- `PathBuf::parent`: drop the file name; `Some("")` and `None` in the
source both behave as the empty component list here. -/
def pathParent (p : PathBuf) : PathBuf := p.dropLast

/-- `Path::join`: an absolute right operand replaces the left one. -/
def pathJoin (a b : PathBuf) : PathBuf :=
  if b.head? = some "/" then b else a ++ b

/-- `PathBuf::from_iter(path.components())`: Rust's component iterator
drops interior `"."` components (a leading one is kept). -/
def componentNorm : PathBuf → PathBuf
  | [] => []
  | x :: xs => x :: xs.filter (fun c => c ≠ ".")

/-- `normalized_path` (src/config/mixin.rs lines 172–186): append
`".yaml"` to the reference's file name, re-attach the reference's own
parent directory, resolve relative to the parent mixin's directory, and
normalize components. -/
def normalizedPath (parent : Mixin) (p : PathBuf) : PathBuf :=
  let fileName := p.getLastD "" ++ ".yaml"
  let rebuilt := pathParent p ++ [fileName]
  componentNorm (pathJoin (pathParent parent.path) rebuilt)

/-- Failures of the recursive resolution: a missing file, a file that does
not parse, or — in this model only — exhausted fuel, standing for the
unguarded reference-cycle divergence noted in the design. -/
inductive LoadErr where
  | openFail (p : PathBuf)
  | parseFail (p : PathBuf) (e : ParseErr)
  | fuel
deriving Repr

/-- `load_mixins` (src/config/mixin.rs lines 188–206), fuelled.  `fs`
is the external file system (path ↦ file contents, `none` = unreadable)
and `py` the external YAML parser.  For each reference in order: normalize
the path, open and parse the file, skip it if the accumulating list
already holds that path, otherwise resolve its own references first and
append it after them.  Fuel only decreases; the source recurses
unboundedly on a reference cycle, which here surfaces as `LoadErr.fuel`. -/
def loadList (py : String → Except String MixinYaml)
    (fs : PathBuf → Option String) :
    Nat → Mixin → List PathBuf → List Mixin → Except LoadErr (List Mixin)
  | _, _, [], acc => .ok acc
  | 0, _, _ :: _, _ => .error .fuel
  | fuel + 1, parent, p :: ps, acc =>
    match fs (normalizedPath parent p) with
    | none => .error (.openFail (normalizedPath parent p))
    | some content =>
      match parseMixin py (normalizedPath parent p) content with
      | .error e => .error (.parseFail (normalizedPath parent p) e)
      | .ok mixin =>
        if acc.any (fun c => c.path = normalizedPath parent p) then
          loadList py fs fuel parent ps acc
        else
          match loadList py fs fuel mixin (mixin.yaml.mixin.getD []) acc with
          | .error e => .error e
          | .ok acc2 => loadList py fs fuel parent ps (acc2 ++ [mixin])

/-- One iteration of the `load_mixins` loop body for a single reference
(the source inlines this inside the `for` loop). -/
def resolveRef (py : String → Except String MixinYaml)
    (fs : PathBuf → Option String) (fuel : Nat) (parent : Mixin)
    (p : PathBuf) (acc : List Mixin) : Except LoadErr (List Mixin) :=
  match fs (normalizedPath parent p) with
  | none => .error (.openFail (normalizedPath parent p))
  | some content =>
    match parseMixin py (normalizedPath parent p) content with
    | .error e => .error (.parseFail (normalizedPath parent p) e)
    | .ok mixin =>
      if acc.any (fun c => c.path = normalizedPath parent p) then .ok acc
      else
        match loadList py fs fuel mixin (mixin.yaml.mixin.getD []) acc with
        | .error e => .error e
        | .ok acc2 => .ok (acc2 ++ [mixin])

/-- The flattened `children` list `Mixin::load` computes for a root
(src/config/mixin.rs lines 36–47): resolve the root's own references into
an initially empty list. -/
def loadChildren (py : String → Except String MixinYaml)
    (fs : PathBuf → Option String) (fuel : Nat) (root : Mixin) :
    Except LoadErr (List Mixin) :=
  loadList py fs fuel root (root.yaml.mixin.getD []) []

/-- `User` from src/docker.rs: the `USER` instruction's payload.  The
source stores `u16`s; the conversion truncates the host's `u32` ids with
`as u16`, modelled there as `% 65536`. -/
structure User where
  uid : Nat
  gid : Option Nat
deriving DecidableEq, Repr

/-- `Display for User`: `uid[:gid]`. -/
def User.render (u : User) : String :=
  natToDecStr u.uid
  ++ (match u.gid with
    | some g => ":" ++ natToDecStr g
    | none => "")

/-- `Command` from src/docker.rs: one build-file instruction. -/
inductive Command where
  | FROM (s : String)
  | COMMENT (s : String)
  | CMD (s : String)
  | ENV (k v : String)
  | ARG (k v : String)
  | RUN (s : String)
  | USER (u : User)
  | COPY (a b : String)
deriving DecidableEq, Repr

/-- The `derive_more::Display` forms of `Command`. -/
def Command.render : Command → String
  | .FROM s => "FROM " ++ s
  | .COMMENT s => "# " ++ s
  | .CMD s => "CMD " ++ s
  | .ENV k v => "ENV " ++ k ++ "=" ++ v
  | .ARG k v => "ARG " ++ k ++ "=" ++ v
  | .RUN s => "RUN " ++ s
  | .USER u => "USER " ++ u.render
  | .COPY a b => "COPY " ++ a ++ " " ++ b

/-- Whether an instruction is a comment (the `matches!` test in
`Dockerfile::write_to`). -/
def Command.isComment : Command → Bool
  | .COMMENT _ => true
  | _ => false

/-- Whether an instruction is a `USER` instruction. -/
def Command.isUser : Command → Bool
  | .USER _ => true
  | _ => false

/-- `Dockerfile` from src/docker.rs: the instruction sequence plus the
three runtime-parameter lists forwarded to `docker run`. -/
structure Dockerfile where
  entries : List Command
  publish : List Publish
  volumes : List Volume
  env : List (String × String)
deriving DecidableEq, Repr

/-- `Dockerfile::write_to` (src/docker.rs lines 97–105): each entry on its
own line, with a blank line inserted before every comment.  It reads only
`entries`; the runtime-parameter lists never enter the text. -/
def renderEntries : List Command → String
  | [] => ""
  | e :: es =>
    (if e.isComment then "\n" else "") ++ e.render ++ "\n" ++ renderEntries es

/-- The canonical text of a build spec (`Dockerfile::write_to` /
`Display for Dockerfile`). -/
def Dockerfile.writeToStr (d : Dockerfile) : String :=
  renderEntries d.entries

/-- `Dockerfile::hash` (src/docker.rs lines 107–111): the hex-encoded
SHA-256 of the canonical text.  The digest comes from the external `sha2`
and `hex` crates and is abstracted as the function parameter `hash`;
every theorem below holds for an arbitrary such function. -/
def Dockerfile.hashStr (hash : String → String) (d : Dockerfile) : String :=
  hash d.writeToStr

/-- `Dockerfile::tag` (src/docker.rs lines 113–115): the fixed namespace
`mini-cross2-` prefixed to the content hash. -/
def Dockerfile.tagStr (hash : String → String) (d : Dockerfile) : String :=
  "mini-cross2-" ++ d.hashStr hash

/-- `ConversionError` from src/convert.rs. -/
inductive ConversionError where
  | MultipleBases (a b : PathBuf)
  | NoBase
  | UnknownBase (s : String)
deriving DecidableEq, Repr

/-- `PackageManager` from src/convert.rs. -/
inductive PackageManager where
  | DNF
  | ZYPPER
  | PACMAN
  | APT
  | APK
deriving DecidableEq, Repr

/-- `PackageManager::install_prefix`. -/
def PackageManager.installPfx : PackageManager → String
  | .DNF => "dnf install -y"
  | .ZYPPER => "zypper install -y"
  | .PACMAN => "pacman -S --noconfirm"
  | .APT => "apt install -y"
  | .APK => "apk add"

/-- `PackageManager::upgrade`. -/
def PackageManager.upgrade : PackageManager → String
  | .DNF => "dnf upgrade -y"
  | .ZYPPER => "zypper update -y"
  | .PACMAN => "pacman -Syu --noconfirm"
  | .APT => "apt update && apt upgrade -y"
  | .APK => "apk update"

/-- `PackageManager::install`: one `RUN` instruction installing the given
batch of packages, space-separated after the dialect's prefix. -/
def PackageManager.install (pm : PackageManager) (packages : List String) :
    Command :=
  .RUN (pm.installPfx ++ " " ++ joinChar ' ' packages)

/-- `PackageManager::defaults` (src/convert.rs lines 47–81): the UTF-8
locale bootstrap followed by the passwordless-sudo bootstrap. -/
def PackageManager.defaults (pm : PackageManager) : List Command :=
  ([.COMMENT "Ensure UTF-8 Support",
    .ENV "LANG" "en_US.UTF-8",
    .ENV "LANGUAGE" "en_US:en",
    .ENV "LC_ALL" "en_US.UTF-8"]
  ++ (match pm with
    | .DNF =>
      [pm.install ["glibc-locale-source"],
       .RUN "localedef --force --inputfile=en_US --charmap=UTF-8 en_US.UTF-8"]
    | .ZYPPER => [pm.install ["glibc-locale", "glibc-i18ndata"]]
    | .PACMAN => []
    | .APT =>
      [pm.install ["locales"],
       .ARG "DEBIAN_FRONTEND" "noninteractive",
       .RUN "echo \x27en_US.UTF-8 UTF-8\x27 >> /etc/locale.gen",
       .RUN "locale-gen"]
    | .APK => []))
  ++ [.COMMENT "Installing sudo and allow sudo for anyone",
      pm.install ["sudo"],
      .RUN "echo \x27ALL ALL = (ALL) NOPASSWD: ALL\x27 >> /etc/sudoers"]

/-- The pre-colon token of a base image reference:
`s.splitn(2, ':').nth(0).unwrap()` from `FromStr for PackageManager`. -/
def preColon (s : String) : String :=
  String.mk (s.data.takeWhile (fun c => c ≠ ':'))

/-- ASCII lower-casing (the table only holds ASCII entries; Rust's
Unicode `to_lowercase` agrees on them). -/
def lowerStr (s : String) : String :=
  String.mk (s.data.map Char.toLower)

/-- `FromStr for PackageManager` (src/convert.rs lines 93–109): match the
lower-cased pre-colon token against the fixed distro table; on no match
the error carries the *whole* input string `s`. -/
def PackageManager.fromStr (s : String) :
    Except ConversionError PackageManager :=
  match lowerStr (preColon s) with
  | "fedora" => .ok .DNF
  | "debian" => .ok .APT
  | "ubuntu" => .ok .APT
  | "opensuse/leap" => .ok .ZYPPER
  | "opensuse/tumbleweed" => .ok .ZYPPER
  | "archlinux" => .ok .PACMAN
  | "alpine" => .ok .APK
  | _ => .error (.UnknownBase s)

/-- The distro tokens the table accepts. -/
def knownBases : List String :=
  ["fedora", "debian", "ubuntu", "opensuse/leap", "opensuse/tumbleweed",
   "archlinux", "alpine"]

/-- The host identity and directory-listing collaborators that
`TryFrom<&Mixin> for Dockerfile` reads (the `users` crate and
`fs::read_dir`).  `uid`/`gid` are the host's `u32` ids.  `contextDirs`
returns, for the root file's directory, the paths of its immediate
non-hidden subdirectories (the `is_dir`/leading-dot filtering happens on
the external side). -/
structure ConvertCtx where
  uid : Nat
  gid : Nat
  uname : String
  gname : String
  contextDirs : PathBuf → List PathBuf

/-- The merge order of the spec builder: the root's flattened children
followed by the root itself, last (src/convert.rs lines 115–117). -/
def mergeOrder (root : Mixin) : List Mixin :=
  root.children ++ [root]

/-- The accumulator of the single pass over the merge order in
`TryFrom<&Mixin> for Dockerfile` (src/convert.rs lines 122–160). -/
structure LoopState where
  fromFile : Option Mixin
  packages : List (Mixin × List String)
  scripts : List (Mixin × String)
  publish : List Publish

/-- One node's contribution to the install batches (src/convert.rs lines
136–148): keep the names no *earlier pushed batch* contains — the batch
under construction is never consulted. -/
def retainedPkgs (packages : List (Mixin × List String)) (m : Mixin) :
    List String :=
  (m.yaml.install.getD []).filter
    (fun p => ! packages.any (fun b => b.2.contains p))

/-- Push the retained batch when it is nonempty. -/
def packagesStep (packages : List (Mixin × List String)) (m : Mixin) :
    List (Mixin × List String) :=
  if (retainedPkgs packages m).isEmpty then packages
  else packages ++ [(m, retainedPkgs packages m)]

/-- The install batches accumulated over a whole node sequence. -/
def packagesFold (acc : List (Mixin × List String)) :
    List Mixin → List (Mixin × List String)
  | [] => acc
  | m :: ms => packagesFold (packagesStep acc m) ms

/-- The per-node state update of the merge loop, minus the base
bookkeeping: install batches, script list, publish list.  The source line
`dockerfile.add_publishes(volume.iter())` (src/convert.rs line 158) hands
the node's *volume* entries to the *publish*-list method — which does not
even type-check (`Volume` is not `Publish`) — and no call adds the node's
`env` entries at all, so neither volumes nor env reach the spec. -/
def stepAccum (s : LoopState) (m : Mixin) (ff : Option Mixin) : LoopState :=
  { fromFile := ff
    packages := packagesStep s.packages m
    scripts := s.scripts ++ (match m.script with
      | some sc => [(m, sc)]
      | none => [])
    publish := s.publish ++ m.yaml.publish.getD [] }

/-- The merge loop of `TryFrom<&Mixin> for Dockerfile` (src/convert.rs
lines 125–160): a second `base` declaration aborts immediately with
`MultipleBases` naming the first declarer and the current node. -/
def processMixins : List Mixin → LoopState →
    Except ConversionError LoopState
  | [], s => .ok s
  | m :: ms, s =>
    match m.yaml.base, s.fromFile with
    | some _, some prev => .error (.MultipleBases prev.path m.path)
    | some _, none => processMixins ms (stepAccum s m (some m))
    | none, ff => processMixins ms (stepAccum s m ff)

/-- The empty accumulator the conversion starts from. -/
def initState : LoopState := ⟨none, [], [], []⟩

/-- The per-batch provenance comment plus install command (the
`for (mixin, package_set) in &packages` loop, src/convert.rs 183–189). -/
def installEntries (pm : PackageManager) :
    List (Mixin × List String) → List Command
  | [] => []
  | (m, pkgs) :: rest =>
    .COMMENT ("Installs from: " ++ joinChar '/' m.path)
    :: pm.install pkgs
    :: installEntries pm rest

/-- The user-provisioning block (src/convert.rs lines 192–206): the `RUN`
commands carry the host's full numeric ids, while the `USER` instruction
stores them through `as u16`, i.e. reduced `% 65536`. -/
def userEntries (ctx : ConvertCtx) : List Command :=
  let uid := natToDecStr ctx.uid
  let gid := natToDecStr ctx.gid
  [.COMMENT "Configure user",
   .RUN ("groupadd --gid " ++ gid ++ " " ++ ctx.gname),
   .RUN ("useradd --gid " ++ gid ++ " --uid " ++ uid
     ++ " --home /home/" ++ ctx.uname ++ " " ++ ctx.uname),
   .RUN ("mkdir -p /home/" ++ ctx.uname),
   .RUN ("chown " ++ uid ++ ":" ++ gid ++ " /home/" ++ ctx.uname),
   .USER ⟨ctx.uid % 65536, some (ctx.gid % 65536)⟩]

/-- The context-directory copies (src/convert.rs lines 208–232): when the
root file's directory is at least two components deep, one `COPY` per
listed directory, preceded by a comment when any exist. -/
def contextEntries (ctx : ConvertCtx) (rootPath : PathBuf) : List Command :=
  if rootPath ≠ [] ∧ (pathParent rootPath).length ≥ 2 then
    (if (ctx.contextDirs (pathParent rootPath)).isEmpty then []
      else [.COMMENT "Adding context dirs"])
    ++ (ctx.contextDirs (pathParent rootPath)).map (fun d =>
        .COPY (joinChar '/' d) ("/" ++ d.getLastD ""))
  else []

/-- The per-script provenance comment plus heredoc `RUN` (src/convert.rs
lines 234–240). -/
def scriptEntries : List (Mixin × String) → List Command
  | [] => []
  | (m, sc) :: rest =>
    .COMMENT ("Exec script from: " ++ joinChar '/' m.path)
    :: .RUN ("<<EOR\n/bin/sh -c " ++ sc ++ "\nEOR")
    :: scriptEntries rest

/-- The full instruction sequence synthesized on the success path of
`TryFrom<&Mixin> for Dockerfile`, in the source's fixed order. -/
def buildEntries (ctx : ConvertCtx) (root : Mixin) (st : LoopState)
    (pm : PackageManager) (fromImg : String) : List Command :=
  [.FROM fromImg,
   .COMMENT "Update outdated default dependencies",
   .RUN pm.upgrade]
  ++ pm.defaults
  ++ installEntries pm st.packages
  ++ userEntries ctx
  ++ contextEntries ctx root.path
  ++ scriptEntries st.scripts
  ++ [.COMMENT "Exec bash as entrypoint",
      .RUN "/usr/bin/env bash"]

/-- The spec produced on the success path.  `volumes` and `env` are empty
for every input: the only volume call in the loop is the ill-typed
`add_publishes(volume.iter())` and no env call exists (see `stepAccum`). -/
def buildDockerfile (ctx : ConvertCtx) (root : Mixin) (st : LoopState)
    (pm : PackageManager) (fromImg : String) : Dockerfile :=
  { entries := buildEntries ctx root st pm fromImg
    publish := st.publish
    volumes := []
    env := [] }

/-- `TryFrom<&Mixin> for Dockerfile` (src/convert.rs lines 111–247):
flatten to the merge order, run the merge loop, require a base declarer,
resolve the package-manager dialect from its base string, then synthesize
the instruction sequence.  Every failure leaves no spec behind (`Except`
carries either the error or the finished value, never both). -/
def tryFromMixin (ctx : ConvertCtx) (root : Mixin) :
    Except ConversionError Dockerfile :=
  match processMixins (mergeOrder root) initState with
  | .error e => .error e
  | .ok st =>
    match st.fromFile with
    | none => .error .NoBase
    | some fm =>
      let fromImg := fm.yaml.base.getD ""
      match PackageManager.fromStr fromImg with
      | .error e => .error e
      | .ok pm => .ok (buildDockerfile ctx root st pm fromImg)

/-- The nodes of the merge order that declare `base`, in order. -/
def baseDecls (root : Mixin) : List Mixin :=
  (mergeOrder root).filter (fun m => m.yaml.base.isSome)

/-- Whether an `Except` value is a success. -/
def isOkE {ε α : Type} : Except ε α → Bool
  | .ok _ => true
  | .error _ => false

/-- A host-identity context with small ids (uid/gid 1000). -/
def ctxW : ConvertCtx := ⟨1000, 1000, "u", "g", fun _ => []⟩

/-- A host-identity context whose ids exceed `u16::MAX`. -/
def ctxTrunc : ConvertCtx := ⟨65536, 70000, "bob", "bob", fun _ => []⟩

/-- Metadata declaring only the base image `alpine`. -/
def yamlAlpine : MixinYaml :=
  { MixinYaml.default with base := some "alpine" }

/-- A root mixin declaring exactly one base. -/
def rootAlpine : Mixin := ⟨["mc.yaml"], yamlAlpine, [], none⟩

/-- A root mixin declaring no base at all. -/
def rootNoBase : Mixin := ⟨["mc.yaml"], MixinYaml.default, [], none⟩

/-- A flattened child declaring a base. -/
def mixX : Mixin :=
  ⟨["a.yaml"], { MixinYaml.default with base := some "x" }, [], none⟩

/-- A root that also declares a base while its child `mixX` already does. -/
def rootTwo : Mixin :=
  ⟨["mc.yaml"], { MixinYaml.default with base := some "y" }, [mixX], none⟩

/-- Metadata carrying one publish, one volume and one env entry. -/
def yamlRt : MixinYaml :=
  { MixinYaml.default with
    base := some "alpine"
    publish := some [⟨none, 80, 80⟩]
    volume := some [⟨"/a", "/b", []⟩]
    env := some [("A", "B")] }

/-- A root declaring runtime parameters of all three kinds. -/
def rootRt : Mixin := ⟨["mc.yaml"], yamlRt, [], none⟩

/-- C1: the canonical text and the derived image tag are functions of the
instruction list alone.  `Dockerfile::write_to` reads only `entries`, so
two specs with equal instruction lists serialize to byte-identical
canonical text and — for any digest function, in particular SHA-256 —
carry the identical tag, whatever their publish/volume/env lists hold.
Serialization is a pure function here, so hashing the same spec twice is
idempotent by construction. -/
theorem C1_tag_function_of_instructions (hash : String → String)
    (d1 d2 : Dockerfile) (h : d1.entries = d2.entries) :
    d1.writeToStr = d2.writeToStr ∧
    d1.hashStr hash = d2.hashStr hash ∧
    d1.tagStr hash = d2.tagStr hash := by
  have ht : d1.writeToStr = d2.writeToStr := by
    unfold Dockerfile.writeToStr
    rw [h]
  refine ⟨ht, ?_, ?_⟩
  · unfold Dockerfile.hashStr
    rw [ht]
  · unfold Dockerfile.tagStr Dockerfile.hashStr
    rw [ht]

/-- Witness for C1: two specs with the same instructions but different
publish, volume and env lists have identical canonical text and tag. -/
theorem C1_tag_function_of_instructions_witness :
    ((⟨[.FROM "alpine"], [⟨none, 80, 80⟩], [], []⟩ : Dockerfile).entries
      = (⟨[.FROM "alpine"], [], [⟨"/a", "/b", []⟩], [("A", "B")]⟩
          : Dockerfile).entries) ∧
    ((⟨[.FROM "alpine"], [⟨none, 80, 80⟩], [], []⟩ : Dockerfile).writeToStr
      = (⟨[.FROM "alpine"], [], [⟨"/a", "/b", []⟩], [("A", "B")]⟩
          : Dockerfile).writeToStr ∧
     (⟨[.FROM "alpine"], [⟨none, 80, 80⟩], [], []⟩ : Dockerfile).hashStr id
      = (⟨[.FROM "alpine"], [], [⟨"/a", "/b", []⟩], [("A", "B")]⟩
          : Dockerfile).hashStr id ∧
     (⟨[.FROM "alpine"], [⟨none, 80, 80⟩], [], []⟩ : Dockerfile).tagStr id
      = (⟨[.FROM "alpine"], [], [⟨"/a", "/b", []⟩], [("A", "B")]⟩
          : Dockerfile).tagStr id) :=
  ⟨rfl, C1_tag_function_of_instructions id _ _ rfl⟩

/-- `PackageManager::from_str` can only fail with `UnknownBase`, and the
payload is the whole input string. -/
theorem fromStr_error_shape (s : String) (e : ConversionError)
    (h : PackageManager.fromStr s = .error e) : e = .UnknownBase s := by
  unfold PackageManager.fromStr at h
  split at h <;> simp_all

/-- C5 (amended): dialect resolution succeeds exactly when the lowercased
pre-colon token of the base reference is in the fixed distro table; on a
miss the `UnknownBase` error carries the *entire* base reference string
(the original claim said it carries the pre-colon token — see
`C5_counterexample`). -/
theorem C5_dialect_resolution (s : String) :
    (isOkE (PackageManager.fromStr s) = true
      ↔ lowerStr (preColon s) ∈ knownBases) ∧
    (lowerStr (preColon s) ∉ knownBases →
      PackageManager.fromStr s = .error (.UnknownBase s)) := by
  unfold PackageManager.fromStr
  split <;> simp_all [isOkE, knownBases]

/-- Witness for C5: `"Ubuntu:22.04"` lowers to the known token `ubuntu`
and resolves; `"gentoo:latest"` is unknown and fails carrying the whole
string. -/
theorem C5_dialect_resolution_witness :
    (isOkE (PackageManager.fromStr "Ubuntu:22.04") = true
      ↔ lowerStr (preColon "Ubuntu:22.04") ∈ knownBases) ∧
    (lowerStr (preColon "gentoo:latest") ∉ knownBases ∧
      PackageManager.fromStr "gentoo:latest"
        = .error (.UnknownBase "gentoo:latest")) :=
  ⟨(C5_dialect_resolution "Ubuntu:22.04").1,
   by decide,
   (C5_dialect_resolution "gentoo:latest").2 (by decide)⟩

/-- Counterexample for C5 as frozen: for the unknown base
`"gentoo:latest"` the error payload is the full string, not the
pre-colon token `"gentoo"` the claim promises. -/
theorem C5_counterexample :
    PackageManager.fromStr "gentoo:latest"
      = .error (.UnknownBase "gentoo:latest") ∧
    preColon "gentoo:latest" = "gentoo" ∧
    "gentoo:latest" ≠ "gentoo" := by
  refine ⟨rfl, rfl, by decide⟩

/-- C7 (divergence witness): a node declaring publish, volume and env
entries contributes only its publish entries to the produced spec.  The
source's only volume call in the merge loop is
`dockerfile.add_publishes(volume.iter())` — handing `Volume` values to
the `Publish` list, which does not type-check — and no statement appends
a node's env map, so the spec's volume and env lists stay empty. -/
theorem C7_runtime_param_divergence :
    (tryFromMixin ctxW rootRt).map
        (fun d => (d.publish, d.volumes, d.env))
      = .ok ([⟨none, 80, 80⟩], [], []) ∧
    rootRt.yaml.volume = some [⟨"/a", "/b", []⟩] ∧
    rootRt.yaml.env = some [("A", "B")] :=
  ⟨rfl, rfl, rfl⟩

/-- C10: publish parsing succeeds exactly when the `':'`-split has two or
three fields and the last two parse as 16-bit unsigned integers; in the
three-field form the first field becomes `host_ip` with no validation at
all (any string the split can produce, including the empty string). -/
theorem C10_publish_parse_shape (s : String) :
    (isOkE (Publish.fromStr s) = true ↔
      (((rustSplit ':' s).length = 2 ∨ (rustSplit ':' s).length = 3) ∧
       (parseU16 ((rustSplit ':' s).getD ((rustSplit ':' s).length - 2)
         "")).isSome = true ∧
       (parseU16 ((rustSplit ':' s).getD ((rustSplit ':' s).length - 1)
         "")).isSome = true)) ∧
    (∀ hp mp, (rustSplit ':' s).length = 3 →
      parseU16 ((rustSplit ':' s).getD 1 "") = some hp →
      parseU16 ((rustSplit ':' s).getD 2 "") = some mp →
      Publish.fromStr s = .ok ⟨some ((rustSplit ':' s).getD 0 ""), hp, mp⟩) := by
  simp only [Publish.fromStr]
  refine ⟨?_, ?_⟩
  · by_cases h2 : (rustSplit ':' s).length ≥ 2
    · simp only [h2, if_true]
      rcases hA : parseU16 ((rustSplit ':' s).getD
          ((rustSplit ':' s).length - 2) "") with _ | hp
      · simp [isOkE, hA]
      · rcases hB : parseU16 ((rustSplit ':' s).getD
            ((rustSplit ':' s).length - 1) "") with _ | mp
        · simp [isOkE, hA, hB]
        · by_cases hl2 : (rustSplit ':' s).length = 2
          · simp [isOkE, hA, hB, hl2]
          · by_cases hl3 : (rustSplit ':' s).length = 3
            · simp [isOkE, hA, hB, hl2, hl3]
            · simp [isOkE, hA, hB, hl2, hl3]
    · simp only [h2, if_false]
      simp only [isOkE]
      constructor
      · intro h
        exact absurd h (by simp)
      · rintro ⟨h23, -, -⟩
        omega
  · intro hp mp h3 hhp hmp
    have h2 : (rustSplit ':' s).length ≥ 2 := by omega
    simp only [h2, if_true]
    rw [show (rustSplit ':' s).length - 2 = 1 by omega,
        show (rustSplit ':' s).length - 1 = 2 by omega] at *
    rw [hhp, hmp]
    simp [h3]

/-- Witness for C10: `":8080:80"` has an empty first field and parses,
with `host_ip = some ""`. -/
theorem C10_publish_parse_shape_witness :
    (isOkE (Publish.fromStr ":8080:80") = true ↔
      (((rustSplit ':' ":8080:80").length = 2 ∨
        (rustSplit ':' ":8080:80").length = 3) ∧
       (parseU16 ((rustSplit ':' ":8080:80").getD
         ((rustSplit ':' ":8080:80").length - 2) "")).isSome = true ∧
       (parseU16 ((rustSplit ':' ":8080:80").getD
         ((rustSplit ':' ":8080:80").length - 1) "")).isSome = true)) ∧
    ((rustSplit ':' ":8080:80").length = 3 ∧
      Publish.fromStr ":8080:80"
        = .ok ⟨some ((rustSplit ':' ":8080:80").getD 0 ""), 8080, 80⟩) :=
  ⟨(C10_publish_parse_shape ":8080:80").1,
   by decide,
   (C10_publish_parse_shape ":8080:80").2 8080 80 (by decide) (by decide)
     (by decide)⟩

/-- A node sequence with no base declarer runs the merge loop to
completion without touching `fromFile`. -/
theorem processMixins_decl_nil (ms : List Mixin) (s : LoopState)
    (h : ms.filter (fun m => m.yaml.base.isSome) = []) :
    ∃ st, processMixins ms s = .ok st ∧ st.fromFile = s.fromFile := by
  induction ms generalizing s with
  | nil => exact ⟨s, rfl, rfl⟩
  | cons m ms ih =>
    by_cases hb : m.yaml.base.isSome
    · simp [List.filter_cons, hb] at h
    · have hnone : m.yaml.base = none := Option.not_isSome_iff_eq_none.mp hb
      simp only [List.filter_cons, hb, if_false] at h
      obtain ⟨st, hst, hff⟩ := ih (stepAccum s m s.fromFile) h
      exact ⟨st, by simpa [processMixins, hnone] using hst, hff⟩

/-- Once a base declarer is recorded, the next declarer in the sequence
aborts the loop with `MultipleBases` naming both. -/
theorem processMixins_decl_some (ms : List Mixin) : ∀ (s : LoopState)
    (f d : Mixin) (rest : List Mixin), s.fromFile = some f →
    ms.filter (fun m => m.yaml.base.isSome) = d :: rest →
    processMixins ms s = .error (.MultipleBases f.path d.path) := by
  induction ms with
  | nil => intro s f d rest _ h; simp at h
  | cons m ms ih =>
    intro s f d rest hf h
    by_cases hb : m.yaml.base.isSome
    · obtain ⟨b, hbase⟩ := Option.isSome_iff_exists.mp hb
      simp only [List.filter_cons, hb, if_true] at h
      obtain ⟨hd, -⟩ := List.cons_eq_cons.mp h
      subst hd
      simp [processMixins, hbase, hf]
    · have hnone : m.yaml.base = none := Option.not_isSome_iff_eq_none.mp hb
      simp only [List.filter_cons, hb, if_false] at h
      simp only [processMixins, hnone]
      exact ih (stepAccum s m s.fromFile) f d rest (by simp [stepAccum, hf]) h

/-- With no declarer recorded yet and exactly one in the sequence, the
loop finishes and records it. -/
theorem processMixins_decl_one (ms : List Mixin) : ∀ (s : LoopState)
    (d : Mixin), s.fromFile = none →
    ms.filter (fun m => m.yaml.base.isSome) = [d] →
    ∃ st, processMixins ms s = .ok st ∧ st.fromFile = some d := by
  induction ms with
  | nil => intro s d _ h; simp at h
  | cons m ms ih =>
    intro s d hf h
    by_cases hb : m.yaml.base.isSome
    · obtain ⟨b, hbase⟩ := Option.isSome_iff_exists.mp hb
      simp only [List.filter_cons, hb, if_true] at h
      obtain ⟨hd, hrest⟩ := List.cons_eq_cons.mp h
      subst hd
      obtain ⟨st, hst, hff⟩ :=
        processMixins_decl_nil ms (stepAccum s m (some m)) hrest
      refine ⟨st, ?_, by simpa [stepAccum] using hff⟩
      simpa [processMixins, hbase, hf] using hst
    · have hnone : m.yaml.base = none := Option.not_isSome_iff_eq_none.mp hb
      simp only [List.filter_cons, hb, if_false] at h
      simp only [processMixins, hnone]
      exact ih (stepAccum s m s.fromFile) d (by simp [stepAccum, hf]) h

/-- With no declarer recorded yet and at least two in the sequence, the
loop fails with `MultipleBases` naming the first two. -/
theorem processMixins_decl_two (ms : List Mixin) : ∀ (s : LoopState)
    (d1 d2 : Mixin) (rest : List Mixin), s.fromFile = none →
    ms.filter (fun m => m.yaml.base.isSome) = d1 :: d2 :: rest →
    processMixins ms s = .error (.MultipleBases d1.path d2.path) := by
  induction ms with
  | nil => intro s d1 d2 rest _ h; simp at h
  | cons m ms ih =>
    intro s d1 d2 rest hf h
    by_cases hb : m.yaml.base.isSome
    · obtain ⟨b, hbase⟩ := Option.isSome_iff_exists.mp hb
      simp only [List.filter_cons, hb, if_true] at h
      obtain ⟨hd, hrest⟩ := List.cons_eq_cons.mp h
      subst hd
      simp only [processMixins, hbase, hf]
      exact processMixins_decl_some ms (stepAccum s m (some m)) m d2 rest
        (by simp [stepAccum]) hrest
    · have hnone : m.yaml.base = none := Option.not_isSome_iff_eq_none.mp hb
      simp only [List.filter_cons, hb, if_false] at h
      simp only [processMixins, hnone]
      exact ih (stepAccum s m s.fromFile) d1 d2 rest (by simp [stepAccum, hf]) h

/-- C2: with zero base declarers in the merge order the conversion fails
with `NoBase`; with two or more it fails with `MultipleBases` naming the
paths of the first two declarers; with exactly one it passes base
validation — the result is never `NoBase` nor `MultipleBases` (only the
later `UnknownBase` dialect check can still fail).  As an `Except`, a
failing conversion carries no spec at all. -/
theorem C2_base_validation (ctx : ConvertCtx) (root : Mixin) :
    (baseDecls root = [] → tryFromMixin ctx root = .error .NoBase) ∧
    (∀ d1 d2 rest, baseDecls root = d1 :: d2 :: rest →
      tryFromMixin ctx root = .error (.MultipleBases d1.path d2.path)) ∧
    (∀ d, baseDecls root = [d] →
      tryFromMixin ctx root ≠ .error .NoBase ∧
      ∀ a b, tryFromMixin ctx root ≠ .error (.MultipleBases a b)) := by
  refine ⟨?_, ?_, ?_⟩
  · intro h
    obtain ⟨st, hst, hff⟩ :=
      processMixins_decl_nil (mergeOrder root) initState h
    have hffn : st.fromFile = none := by rw [hff]; rfl
    simp [tryFromMixin, hst, hffn]
  · intro d1 d2 rest h
    have := processMixins_decl_two (mergeOrder root) initState d1 d2 rest
      rfl h
    simp [tryFromMixin, this]
  · intro d h
    obtain ⟨st, hst, hff⟩ :=
      processMixins_decl_one (mergeOrder root) initState d rfl h
    rcases hpm : PackageManager.fromStr (d.yaml.base.getD "") with e | pm
    · have he := fromStr_error_shape _ _ hpm
      subst he
      constructor
      · simp [tryFromMixin, hst, hff, hpm]
      · intro a b
        simp [tryFromMixin, hst, hff, hpm]
    · constructor
      · simp [tryFromMixin, hst, hff, hpm]
      · intro a b
        simp [tryFromMixin, hst, hff, hpm]

/-- Witness for C2: the three concrete scenarios — no declarer, two
declarers (child first, root second), exactly one declarer. -/
theorem C2_base_validation_witness :
    (baseDecls rootNoBase = [] ∧
      tryFromMixin ctxW rootNoBase = .error .NoBase) ∧
    (baseDecls rootTwo = [mixX, rootTwo] ∧
      tryFromMixin ctxW rootTwo
        = .error (.MultipleBases mixX.path rootTwo.path)) ∧
    (baseDecls rootAlpine = [rootAlpine] ∧
      tryFromMixin ctxW rootAlpine ≠ .error .NoBase) :=
  ⟨⟨rfl, (C2_base_validation ctxW rootNoBase).1 rfl⟩,
   ⟨rfl, (C2_base_validation ctxW rootTwo).2.1 mixX rootTwo [] rfl⟩,
   ⟨rfl, ((C2_base_validation ctxW rootAlpine).2.2 rootAlpine rfl).1⟩⟩

/-- Whether an install batch mentions a package name. -/
def batchHas (p : String) (b : Mixin × List String) : Bool :=
  b.2.contains p

/-- The install-batch accumulator only ever appends batches. -/
theorem packagesFold_append (ms : List Mixin) :
    ∀ acc, ∃ extra, packagesFold acc ms = acc ++ extra := by
  induction ms with
  | nil => intro acc; exact ⟨[], by simp [packagesFold]⟩
  | cons m ms ih =>
    intro acc
    obtain ⟨extra, hextra⟩ := ih (packagesStep acc m)
    have hfold : packagesFold acc (m :: ms)
        = packagesFold (packagesStep acc m) ms := rfl
    by_cases hl : (retainedPkgs acc m).isEmpty
    · have hstep : packagesStep acc m = acc := by
        unfold packagesStep
        simp [hl]
      exact ⟨extra, by rw [hfold, hextra, hstep]⟩
    · have hstep : packagesStep acc m
          = acc ++ [(m, retainedPkgs acc m)] := by
        unfold packagesStep
        simp [hl]
      refine ⟨(m, retainedPkgs acc m) :: extra, ?_⟩
      rw [hfold, hextra, hstep]
      simp

/-- A batch pushed for a node only holds names from that node's install
list. -/
theorem packagesStep_batch_sub (acc : List (Mixin × List String))
    (m : Mixin) (b : Mixin × List String) (hb : b ∈ packagesStep acc m)
    (hnb : b ∉ acc) : b.2 ⊆ m.yaml.install.getD [] := by
  unfold packagesStep at hb
  split at hb
  · exact absurd hb hnb
  · rcases List.mem_append.mp hb with h | h
    · exact absurd h hnb
    · simp at h
      subst h
      exact fun x hx => List.mem_of_mem_filter hx

/-- If some already-pushed batch holds `p`, the next step pushes no batch
holding `p`. -/
theorem packagesStep_count (acc : List (Mixin × List String)) (m : Mixin)
    (p : String) (h : 1 ≤ acc.countP (batchHas p)) :
    (packagesStep acc m).countP (batchHas p) = acc.countP (batchHas p) := by
  unfold packagesStep
  split
  · rfl
  · rw [List.countP_append]
    have hnew : batchHas p (m, retainedPkgs acc m) = false := by
      by_contra hc
      simp only [Bool.not_eq_false, batchHas] at hc
      unfold retainedPkgs at hc
      have hp := List.mem_filter.mp (List.elem_iff.mp hc)
      have hany : acc.any (fun b => b.2.contains p) = true := by
        obtain ⟨b, hb, hbp⟩ := List.countP_pos_iff.mp (by omega :
          0 < acc.countP (batchHas p))
        exact List.any_eq_true.mpr ⟨b, hb, hbp⟩
      obtain ⟨-, hneg⟩ := hp
      simp only [Bool.not_eq_true'] at hneg
      rw [hany] at hneg
      cases hneg
    simp [List.countP_cons, hnew]

/-- Folding can only ever reach one batch holding `p` in total. -/
theorem packagesFold_count_le (ms : List Mixin) : ∀ acc (p : String),
    (packagesFold acc ms).countP (batchHas p)
      ≤ max 1 (acc.countP (batchHas p)) := by
  induction ms with
  | nil => intro acc p; simp [packagesFold, le_max_right]
  | cons m ms ih =>
    intro acc p
    show (packagesFold (packagesStep acc m) ms).countP (batchHas p) ≤ _
    by_cases hc : 1 ≤ acc.countP (batchHas p)
    · calc (packagesFold (packagesStep acc m) ms).countP (batchHas p)
          ≤ max 1 ((packagesStep acc m).countP (batchHas p)) := ih _ p
        _ = max 1 (acc.countP (batchHas p)) := by
            rw [packagesStep_count acc m p hc]
    · have h0 : acc.countP (batchHas p) = 0 := by omega
      have hstep : (packagesStep acc m).countP (batchHas p) ≤ 1 := by
        unfold packagesStep
        split
        · omega
        · rw [List.countP_append, h0]
          simp [List.countP_cons]
          split <;> omega
      calc (packagesFold (packagesStep acc m) ms).countP (batchHas p)
          ≤ max 1 ((packagesStep acc m).countP (batchHas p)) := ih _ p
        _ ≤ max 1 1 := by
            exact max_le_max (le_refl 1) hstep
        _ ≤ max 1 (acc.countP (batchHas p)) := by simp

/-- Attribution: when no already-pushed batch holds `p`, the first batch
of the fold holding `p` belongs to the first node of the sequence whose
install list holds `p`. -/
theorem packagesFold_find (ms : List Mixin) :
    ∀ acc (p : String), (∀ b ∈ acc, batchHas p b = false) →
    ((packagesFold acc ms).find? (batchHas p)).map Prod.fst
      = ms.find? (fun m => (m.yaml.install.getD []).contains p) := by
  induction ms with
  | nil =>
    intro acc p h
    have : (packagesFold acc []).find? (batchHas p) = none :=
      List.find?_eq_none.mpr (fun x hx => by simp [h x hx])
    simp [this]
  | cons m ms ih =>
    intro acc p h
    have hfold : packagesFold acc (m :: ms)
        = packagesFold (packagesStep acc m) ms := rfl
    have hanyf : acc.any (fun b => b.2.contains p) = false := by
      rw [Bool.eq_false_iff]
      intro hc
      obtain ⟨b, hb, hbp⟩ := List.any_eq_true.mp hc
      have hx := h b hb
      simp only [batchHas] at hx
      rw [hbp] at hx
      cases hx
    by_cases hm : (m.yaml.install.getD []).contains p
    · -- the head node is the first to list p, and its batch keeps p
      have hpl : p ∈ retainedPkgs acc m := by
        unfold retainedPkgs
        exact List.mem_filter.mpr ⟨List.elem_iff.mp hm, by simpa using hanyf⟩
      have hne : (retainedPkgs acc m).isEmpty = false := by
        cases hr : retainedPkgs acc m with
        | nil => rw [hr] at hpl; simp at hpl
        | cons a l => simp
      have hstep : packagesStep acc m
          = acc ++ [(m, retainedPkgs acc m)] := by
        unfold packagesStep
        simp [hne]
      obtain ⟨extra, hextra⟩ := packagesFold_append ms (packagesStep acc m)
      rw [hfold, hextra, hstep]
      have hfacc : acc.find? (batchHas p) = none :=
        List.find?_eq_none.mpr (fun x hx => by simp [h x hx])
      have hbatch : batchHas p (m, retainedPkgs acc m) = true := by
        simp only [batchHas]
        exact List.elem_iff.mpr hpl
      rw [List.append_assoc, List.find?_append, hfacc, List.singleton_append,
        List.find?_cons_of_pos _ hbatch,
        @List.find?_cons_of_pos _ (fun m => (m.yaml.install.getD
          []).contains p) m ms (by simpa using hm)]
      simp [Option.none_or]
    · -- the head node does not list p: its batch cannot hold p either
      have hnot : ∀ b ∈ packagesStep acc m, batchHas p b = false := by
        intro b hb
        by_cases hbin : b ∈ acc
        · exact h b hbin
        · have hsub := packagesStep_batch_sub acc m b hb hbin
          by_contra hc
          simp only [Bool.not_eq_false, batchHas] at hc
          have : p ∈ m.yaml.install.getD [] := hsub (List.elem_iff.mp hc)
          exact absurd (List.elem_iff.mpr this) (by simpa using hm)
      rw [hfold, ih (packagesStep acc m) p hnot,
        List.find?_cons_of_neg _ (by simpa using hm)]

/-- The merge loop's install batches are exactly the pure fold of
`packagesStep` (by induction over the loop). -/
theorem processMixins_packages (ms : List Mixin) : ∀ (s : LoopState)
    (st : LoopState), processMixins ms s = .ok st →
    st.packages = packagesFold s.packages ms := by
  induction ms with
  | nil =>
    intro s st h
    simp only [processMixins] at h
    cases h
    rfl
  | cons m ms ih =>
    intro s st h
    rcases hb : m.yaml.base with _ | b <;>
      rcases hf : s.fromFile with _ | f <;>
      simp only [processMixins, hb, hf] at h <;>
      first
        | exact ih _ st h
        | cases h

/-- C4: across a whole merge, each package name ends up in at most one
install batch — hence at most one synthesized install command, since the
conversion emits exactly one install command per batch (`installEntries`)
— and the batch holding it belongs to the first node in merge order whose
install list holds it.  This needs no assumption on the input: even a
node listing the same name twice yields a single batch (holding the name
twice), because retention is only checked against *earlier* batches.  The
third conjunct ties the pure fold to the merge loop the conversion runs. -/
theorem C4_install_dedup (ms : List Mixin) (p : String) :
    (packagesFold [] ms).countP (batchHas p) ≤ 1 ∧
    ((packagesFold [] ms).find? (batchHas p)).map Prod.fst
      = ms.find? (fun m => (m.yaml.install.getD []).contains p) ∧
    (processMixins ms initState).map LoopState.packages
      = (processMixins ms initState).map (fun _ => packagesFold [] ms) := by
  refine ⟨?_, ?_, ?_⟩
  · have := packagesFold_count_le ms [] p
    simpa using this
  · exact packagesFold_find ms [] p (by simp)
  · rcases hp : processMixins ms initState with e | st
    · rfl
    · have := processMixins_packages ms initState st hp
      simp [Except.map, this, initState]

/-- `takeWhile` consumes a whole list of satisfying elements. -/
theorem takeWhile_all {α : Type} (p : α → Bool) (l : List α)
    (h : ∀ x ∈ l, p x = true) : l.takeWhile p = l := by
  induction l with
  | nil => rfl
  | cons a l ih =>
    rw [List.takeWhile_cons, if_pos (h a (by simp)),
      ih (fun x hx => h x (by simp [hx]))]

/-- `takeWhile` stops exactly at the first failing element. -/
theorem takeWhile_middle {α : Type} (p : α → Bool) (cfg : List α) (cl : α)
    (tail : List α) (hcfg : ∀ x ∈ cfg, p x = true) (hcl : p cl = false) :
    (cfg ++ cl :: tail).takeWhile p = cfg := by
  induction cfg with
  | nil => simp [List.takeWhile_cons, hcl]
  | cons a l ih =>
    rw [List.cons_append, List.takeWhile_cons, if_pos (hcfg a (by simp)),
      ih (fun x hx => hcfg x (by simp [hx]))]

/-- Dropping past a distinguished element leaves the tail. -/
theorem drop_past {α : Type} (cfg : List α) (cl : α) (tail : List α) :
    (cfg ++ cl :: tail).drop (cfg.length + 1) = tail := by
  have h : cfg ++ cl :: tail = (cfg ++ [cl]) ++ tail := by simp
  have hlen : (cfg ++ [cl]).length = cfg.length + 1 := by simp
  rw [h, ← hlen, List.drop_left]

/-- C6 (amended): with CRLF normalized and the file split into lines — if
there are no lines the file was empty and parsing is a fatal format
error; if the first line trims to `"---"` and no later line *trims to*
`"---"` the closing delimiter is missing and parsing is a fatal format
error; if the first line trims to `"---"` and a later line trims to
`"---"`, the lines before the first such line are handed to the YAML
parser (whose failure is fatal) and the lines after it form the script,
`none` when empty; with no leading delimiter the whole file is the
script, `none` when empty, with default-empty metadata.  The original
claim required the closing line to be *exactly* `"---"`; the source
trims it first — see `C6_counterexample`. -/
theorem C6_metadata_parsing (py : String → Except String MixinYaml)
    (path : PathBuf) (content : String) :
    (rustLines (crlfToLf content) = [] →
      parseMixin py path content = .error .emptyFile) ∧
    (∀ first rest, rustLines (crlfToLf content) = first :: rest →
      trimStr first = "---" → (∀ l ∈ rest, trimStr l ≠ "---") →
      parseMixin py path content = .error .missingClosing) ∧
    (∀ first cfg cl tail,
      rustLines (crlfToLf content) = first :: (cfg ++ cl :: tail) →
      trimStr first = "---" → (∀ l ∈ cfg, trimStr l ≠ "---") →
      trimStr cl = "---" →
      parseMixin py path content =
        (match py (joinChar '\n' cfg) with
          | .error e => .error (.badYaml e)
          | .ok yaml => .ok ⟨path, yaml, [],
              if joinChar '\n' tail = "" then none
              else some (joinChar '\n' tail)⟩)) ∧
    (∀ first rest, rustLines (crlfToLf content) = first :: rest →
      trimStr first ≠ "---" →
      parseMixin py path content = .ok ⟨path, MixinYaml.default, [],
        if joinChar '\n' (first :: rest) = "" then none
        else some (joinChar '\n' (first :: rest))⟩) := by
  refine ⟨?_, ?_, ?_, ?_⟩
  · intro h
    simp [parseMixin, h]
  · intro first rest h hfirst hrest
    have htake : rest.takeWhile (fun l => !decide (trimStr l = "---"))
        = rest :=
      takeWhile_all _ rest (fun x hx => by simp [hrest x hx])
    simp [parseMixin, h, hfirst, htake]
  · intro first cfg cl tail h hfirst hcfg hcl
    have htake : (cfg ++ cl :: tail).takeWhile
        (fun l => !decide (trimStr l = "---")) = cfg :=
      takeWhile_middle _ cfg cl tail
        (fun x hx => by simp [hcfg x hx]) (by simp [hcl])
    have hlen : ¬ cfg.length = (cfg ++ cl :: tail).length := by
      simp only [List.length_append, List.length_cons]
      omega
    have hdrop := drop_past cfg cl tail
    rcases hpy : py (joinChar '\n' cfg) with e | yaml <;>
      simp [parseMixin, h, hfirst, htake, hdrop, hlen, hpy]
  · intro first rest h hfirst
    simp [parseMixin, h, hfirst]

/-- The stub YAML collaborator: accepts anything as empty metadata. -/
def pyDef : String → Except String MixinYaml :=
  fun _ => .ok MixinYaml.default

/-- Witness for C6: the four scenarios on concrete inputs — empty file,
missing closing delimiter, delimited metadata with script, and a
header-less all-script file. -/
theorem C6_metadata_parsing_witness :
    (rustLines (crlfToLf "") = [] ∧
      parseMixin pyDef ["p"] "" = .error .emptyFile) ∧
    (rustLines (crlfToLf "---\nbase: x\necho hi") =
        ["---", "base: x", "echo hi"] ∧
      parseMixin pyDef ["p"] "---\nbase: x\necho hi"
        = .error .missingClosing) ∧
    (rustLines (crlfToLf "---\nbase: x\n---\necho hi\n") =
        ["---", "base: x", "---", "echo hi"] ∧
      parseMixin pyDef ["p"] "---\nbase: x\n---\necho hi\n"
        = .ok ⟨["p"], MixinYaml.default, [], some "echo hi"⟩) ∧
    (parseMixin pyDef ["p"] "echo one\necho two"
      = .ok ⟨["p"], MixinYaml.default, [], some "echo one\necho two"⟩) := by
  refine ⟨⟨by decide, ?_⟩, ⟨by decide, ?_⟩, ⟨by decide, ?_⟩, ?_⟩
  · exact (C6_metadata_parsing pyDef ["p"] "").1 (by decide)
  · exact (C6_metadata_parsing pyDef ["p"] "---\nbase: x\necho hi").2.1
      "---" ["base: x", "echo hi"] (by decide) (by decide) (by decide)
  · exact (C6_metadata_parsing pyDef ["p"] "---\nbase: x\n---\necho hi\n").2.2.1
      "---" ["base: x"] "---" ["echo hi"] (by decide) (by decide)
      (by decide) (by decide)
  · exact (C6_metadata_parsing pyDef ["p"] "echo one\necho two").2.2.2
      "echo one" ["echo two"] (by decide) (by decide)

/-- Counterexample for C6 as frozen: in `"---\n ---\necho"` no line after
the first is *exactly* `"---"` (the second line is `" ---"`), so the
claim demands a missing-closing-delimiter error; the source trims before
comparing and parses successfully, with `" ---"` closing the metadata. -/
theorem C6_counterexample :
    rustLines (crlfToLf "---\n ---\necho") = ["---", " ---", "echo"] ∧
    (" ---" : String) ≠ "---" ∧ ("echo" : String) ≠ "---" ∧
    parseMixin pyDef ["p"] "---\n ---\necho"
      = .ok ⟨["p"], MixinYaml.default, [], some "echo"⟩ := by
  refine ⟨by decide, by decide, by decide, rfl⟩

/-- The install loop emits only comments and `RUN` commands. -/
theorem installEntries_no_user (pm : PackageManager) :
    ∀ l, (installEntries pm l).filter Command.isUser = [] := by
  intro l
  induction l with
  | nil => rfl
  | cons b rest ih =>
    obtain ⟨m, pkgs⟩ := b
    simp [installEntries, PackageManager.install, Command.isUser, ih]

/-- The script loop emits only comments and `RUN` commands. -/
theorem scriptEntries_no_user :
    ∀ l, (scriptEntries l).filter Command.isUser = [] := by
  intro l
  induction l with
  | nil => rfl
  | cons b rest ih =>
    obtain ⟨m, sc⟩ := b
    simp [scriptEntries, Command.isUser, ih]

/-- The dialect bootstrap emits no `USER` instruction. -/
theorem defaults_no_user (pm : PackageManager) :
    pm.defaults.filter Command.isUser = [] := by
  cases pm <;> rfl

/-- The context-directory block emits only a comment and `COPY`s. -/
theorem contextEntries_no_user (ctx : ConvertCtx) (rootPath : PathBuf) :
    (contextEntries ctx rootPath).filter Command.isUser = [] := by
  unfold contextEntries
  split
  · rw [List.filter_append]
    have h1 : (if (ctx.contextDirs (pathParent rootPath)).isEmpty then
        ([] : List Command) else [.COMMENT "Adding context dirs"]).filter
        Command.isUser = [] := by
      split <;> rfl
    have h2 : ((ctx.contextDirs (pathParent rootPath)).map (fun d =>
        Command.COPY (joinChar '/' d) ("/" ++ d.getLastD ""))).filter
        Command.isUser = [] := by
      induction ctx.contextDirs (pathParent rootPath) with
      | nil => rfl
      | cons d rest ih => simp [Command.isUser, ih]
    rw [h1, h2]
    rfl
  · rfl

/-- The user-provisioning block contributes exactly one `USER`
instruction, carrying the `% 2^16`-reduced ids. -/
theorem userEntries_user (ctx : ConvertCtx) :
    (userEntries ctx).filter Command.isUser
      = [.USER ⟨ctx.uid % 65536, some (ctx.gid % 65536)⟩] := rfl

/-- The synthesized sequence holds exactly one `USER` instruction. -/
theorem buildEntries_user (ctx : ConvertCtx) (root : Mixin)
    (st : LoopState) (pm : PackageManager) (fromImg : String) :
    (buildEntries ctx root st pm fromImg).filter Command.isUser
      = [.USER ⟨ctx.uid % 65536, some (ctx.gid % 65536)⟩] := by
  unfold buildEntries
  simp only [List.filter_append, installEntries_no_user, defaults_no_user,
    scriptEntries_no_user, contextEntries_no_user, userEntries_user]
  rfl

/-- The `chown` command of the user-provisioning block, carrying the
host's full (untruncated) ids. -/
def chownCmd (ctx : ConvertCtx) : Command :=
  .RUN ("chown " ++ natToDecStr ctx.uid ++ ":" ++ natToDecStr ctx.gid
    ++ " /home/" ++ ctx.uname)

/-- The synthesized sequence carries the full-id `chown` command. -/
theorem buildEntries_chown (ctx : ConvertCtx) (root : Mixin)
    (st : LoopState) (pm : PackageManager) (fromImg : String) :
    chownCmd ctx ∈ buildEntries ctx root st pm fromImg := by
  unfold buildEntries userEntries chownCmd
  simp

/-- C9 (amended): on every successful conversion the instruction sequence
holds exactly one `USER` instruction and it carries
`uid % 2^16 : gid % 2^16` — the host ids truncated by `as u16` — while
the `chown` `RUN` command (like `groupadd`/`useradd`) carries the full
untruncated ids; the two agree exactly when both ids are below 2^16.
The original claim asserted exact agreement for *every* host id — see
`C9_counterexample`. -/
theorem C9_user_truncation (ctx : ConvertCtx) (root : Mixin)
    (h : isOkE (tryFromMixin ctx root) = true) :
    ((tryFromMixin ctx root).map
        (fun d => d.entries.filter Command.isUser)
      = .ok [.USER ⟨ctx.uid % 65536, some (ctx.gid % 65536)⟩]) ∧
    ((tryFromMixin ctx root).map
        (fun d => decide (chownCmd ctx ∈ d.entries)) = .ok true) ∧
    (ctx.uid < 65536 → ctx.gid < 65536 →
      (tryFromMixin ctx root).map
          (fun d => d.entries.filter Command.isUser)
        = .ok [.USER ⟨ctx.uid, some ctx.gid⟩]) := by
  rcases hp : processMixins (mergeOrder root) initState with e | st
  · simp [tryFromMixin, hp, isOkE] at h
  · rcases hff : st.fromFile with _ | fm
    · simp [tryFromMixin, hp, hff, isOkE] at h
    · rcases hfs : PackageManager.fromStr (fm.yaml.base.getD "")
          with e | pm
      · simp [tryFromMixin, hp, hff, hfs, isOkE] at h
      · refine ⟨?_, ?_, ?_⟩
        · simp [tryFromMixin, hp, hff, hfs, buildDockerfile, Except.map,
            buildEntries_user]
        · simp [tryFromMixin, hp, hff, hfs, buildDockerfile, Except.map,
            buildEntries_chown]
        · intro hu hg
          simp [tryFromMixin, hp, hff, hfs, buildDockerfile, Except.map,
            buildEntries_user, Nat.mod_eq_of_lt hu, Nat.mod_eq_of_lt hg]

/-- Witness for C9: a concrete conversion under ids 1000:1000, where the
single `USER` instruction agrees with the full ids. -/
theorem C9_user_truncation_witness :
    isOkE (tryFromMixin ctxW rootAlpine) = true ∧
    ((tryFromMixin ctxW rootAlpine).map
        (fun d => d.entries.filter Command.isUser)
      = .ok [.USER ⟨1000 % 65536, some (1000 % 65536)⟩]) ∧
    ((tryFromMixin ctxW rootAlpine).map
        (fun d => d.entries.filter Command.isUser)
      = .ok [.USER ⟨1000, some 1000⟩]) :=
  ⟨rfl,
   (C9_user_truncation ctxW rootAlpine rfl).1,
   (C9_user_truncation ctxW rootAlpine rfl).2.2 (by decide) (by decide)⟩

/-- Counterexample for C9 as frozen: with host ids 65536:70000 the
generated `chown` command uses `65536:70000`, but the `USER` instruction
switches to `0:4464` — not the host's numeric uid and gid. -/
theorem C9_counterexample :
    ((tryFromMixin ctxTrunc rootAlpine).map
        (fun d => d.entries.filter Command.isUser)
      = .ok [.USER ⟨0, some 4464⟩]) ∧
    ((tryFromMixin ctxTrunc rootAlpine).map
        (fun d => decide ((.RUN "chown 65536:70000 /home/bob")
          ∈ d.entries)) = .ok true) ∧
    (0 : Nat) ≠ 65536 ∧ (4464 : Nat) ≠ 70000 :=
  ⟨rfl, rfl, by decide, by decide⟩

/-- The `load_mixins` loop over no references returns the accumulator. -/
theorem loadList_nil (py : String → Except String MixinYaml)
    (fs : PathBuf → Option String) (fuel : Nat) (parent : Mixin)
    (acc : List Mixin) : loadList py fs fuel parent [] acc = .ok acc := by
  cases fuel <;> rfl

/-- One `load_mixins` loop iteration equals `resolveRef` followed by the
rest of the list. -/
theorem loadList_cons (py : String → Except String MixinYaml)
    (fs : PathBuf → Option String) (fuel : Nat) (parent : Mixin)
    (p : PathBuf) (ps : List PathBuf) (acc : List Mixin) :
    loadList py fs (fuel + 1) parent (p :: ps) acc =
      match resolveRef py fs fuel parent p acc with
      | .error e => .error e
      | .ok acc2 => loadList py fs fuel parent ps acc2 := by
  rcases hfs : fs (normalizedPath parent p) with _ | content <;>
    simp only [loadList, resolveRef, hfs]
  rcases hpm : parseMixin py (normalizedPath parent p) content
      with e | mixin <;> simp only [hpm]
  by_cases hany : acc.any (fun c => c.path = normalizedPath parent p)
  · simp [hany]
  · simp only [Bool.not_eq_true] at hany
    rcases hrec : loadList py fs fuel mixin (mixin.yaml.mixin.getD []) acc
        with e | acc2 <;> simp [hany, hrec]

/-- The YAML collaborator of the diamond example: the single metadata
line `mixin: d` parses to a one-reference mixin list. -/
def pyD : String → Except String MixinYaml :=
  fun s =>
    if s = "mixin: d" then
      .ok { MixinYaml.default with mixin := some [["d"]] }
    else .ok MixinYaml.default

/-- The file system of the diamond example: `b` and `c` each reference
`d`; `d` is a plain script. -/
def fsD : PathBuf → Option String :=
  fun p =>
    if p = ["b.yaml"] ∨ p = ["c.yaml"] then some "---\nmixin: d\n---\n"
    else if p = ["d.yaml"] then some "echo d\n"
    else none

/-- The diamond root: references `b` then `c`. -/
def rootD : Mixin :=
  ⟨["mc.yaml"],
   { MixinYaml.default with mixin := some [["b"], ["c"]] },
   [], none⟩

/-- The parsed node behind `b.yaml` (and, path aside, `c.yaml`). -/
def mixB : Mixin :=
  ⟨["b.yaml"], { MixinYaml.default with mixin := some [["d"]] }, [], none⟩

/-- C3: (1) a root referencing `[B, C]` resolves as — all of B's
processing (its transitive descendants first, then B), then all of C's
processing against the list B produced; (2) a reference whose file loads
and whose path is not yet listed contributes its own resolved descendants
followed by itself; (3) a reference whose path already appears in the
accumulating list is skipped (after its file is opened and parsed);
(4) the spec builder appends the root last; (5) in the concrete diamond
(`A → [B, C]`, `B → D`, `C → D`) the flattened children are exactly
`[D, B, C]`: `D` appears once, at the position of its first encounter
via `B`. -/
theorem C3_resolution_order (py : String → Except String MixinYaml)
    (fs : PathBuf → Option String) :
    (∀ fuel A pb pc, A.yaml.mixin = some [pb, pc] →
      loadChildren py fs (fuel + 2) A =
        (resolveRef py fs (fuel + 1) A pb []).bind
          (fun acc => resolveRef py fs fuel A pc acc)) ∧
    (∀ fuel parent p acc content m,
      fs (normalizedPath parent p) = some content →
      parseMixin py (normalizedPath parent p) content = .ok m →
      acc.any (fun c => c.path = normalizedPath parent p) = false →
      resolveRef py fs fuel parent p acc =
        (loadList py fs fuel m (m.yaml.mixin.getD []) acc).map
          (fun acc2 => acc2 ++ [m])) ∧
    (∀ fuel parent p acc content m,
      fs (normalizedPath parent p) = some content →
      parseMixin py (normalizedPath parent p) content = .ok m →
      acc.any (fun c => c.path = normalizedPath parent p) = true →
      resolveRef py fs fuel parent p acc = .ok acc) ∧
    (∀ root : Mixin, mergeOrder root = root.children ++ [root]) ∧
    ((loadChildren pyD fsD 10 rootD).map (fun l => l.map Mixin.path)
      = .ok [["d.yaml"], ["b.yaml"], ["c.yaml"]]) := by
  refine ⟨?_, ?_, ?_, fun _ => rfl, rfl⟩
  · intro fuel A pb pc h
    show loadList py fs (fuel + 2) A (A.yaml.mixin.getD []) [] = _
    rw [h]
    show loadList py fs (fuel + 1 + 1) A (pb :: [pc]) [] = _
    rw [loadList_cons]
    rcases r1 : resolveRef py fs (fuel + 1) A pb [] with e | acc1
    · rfl
    · show loadList py fs (fuel + 1) A (pc :: []) acc1
        = resolveRef py fs fuel A pc acc1
      rw [loadList_cons]
      rcases r2 : resolveRef py fs fuel A pc acc1 with e | acc2
      · rfl
      · show loadList py fs fuel A [] acc2 = Except.ok acc2
        exact loadList_nil py fs fuel A acc2
  · intro fuel parent p acc content m hfs hpm hany
    simp only [resolveRef, hfs, hpm, hany, Bool.false_eq_true, if_false,
      ite_false]
    rcases hrec : loadList py fs fuel m (m.yaml.mixin.getD []) acc
        with e | acc2 <;> simp [hrec, Except.map]
  · intro fuel parent p acc content m hfs hpm hany
    simp only [resolveRef, hfs, hpm, hany, if_true, ite_true]

/-- Witness for C3: every conjunct exercised on the diamond example. -/
theorem C3_resolution_order_witness :
    (rootD.yaml.mixin = some [["b"], ["c"]] ∧
      loadChildren pyD fsD 10 rootD =
        (resolveRef pyD fsD 9 rootD ["b"] []).bind
          (fun acc => resolveRef pyD fsD 8 rootD ["c"] acc)) ∧
    (fsD (normalizedPath rootD ["b"]) = some "---\nmixin: d\n---\n" ∧
      parseMixin pyD (normalizedPath rootD ["b"]) "---\nmixin: d\n---\n"
        = .ok mixB ∧
      ([] : List Mixin).any (fun c => c.path = normalizedPath rootD ["b"])
        = false ∧
      resolveRef pyD fsD 5 rootD ["b"] [] =
        (loadList pyD fsD 5 mixB (mixB.yaml.mixin.getD []) []).map
          (fun acc2 => acc2 ++ [mixB])) ∧
    ([mixB].any (fun c => c.path = normalizedPath rootD ["b"]) = true ∧
      resolveRef pyD fsD 5 rootD ["b"] [mixB] = .ok [mixB]) ∧
    mergeOrder rootD = rootD.children ++ [rootD] :=
  ⟨⟨rfl, (C3_resolution_order pyD fsD).1 8 rootD ["b"] ["c"] rfl⟩,
   ⟨rfl, rfl, rfl,
    (C3_resolution_order pyD fsD).2.1 5 rootD ["b"] []
      "---\nmixin: d\n---\n" mixB rfl rfl rfl⟩,
   ⟨rfl,
    (C3_resolution_order pyD fsD).2.2.1 5 rootD ["b"] [mixB]
      "---\nmixin: d\n---\n" mixB rfl rfl rfl⟩,
   (C3_resolution_order pyD fsD).2.2.2.1 rootD⟩

/-- Every rendered digit is an ASCII digit. -/
theorem digitChar_isDigit (n : Nat) : (digitChar n).isDigit = true := by
  rcases n with _ | _ | _ | _ | _ | _ | _ | _ | _ | n <;> rfl

/-- The numeric value of a rendered digit. -/
theorem digitChar_val (n : Nat) (h : n < 10) :
    (digitChar n).toNat - 48 = n := by
  interval_cases n <;> rfl

/-- Appending one digit multiplies the accumulated value by ten. -/
theorem decValue_append (l : List Char) (c : Char) :
    decValue (l ++ [c]) = decValue l * 10 + (c.toNat - 48) := by
  unfold decValue
  rw [List.foldl_append]
  rfl

/-- With enough fuel, decimal rendering is correct: it evaluates back to
the number, consists of digits, and is nonempty. -/
theorem natToDecCharsAux_spec :
    ∀ fuel n, n < fuel →
    decValue (natToDecCharsAux fuel n) = n ∧
    (∀ c ∈ natToDecCharsAux fuel n, c.isDigit = true) ∧
    natToDecCharsAux fuel n ≠ [] := by
  intro fuel
  induction fuel with
  | zero => intro n h; omega
  | succ fuel ih =>
    intro n h
    by_cases h10 : n < 10
    · refine ⟨?_, ?_, ?_⟩
      · simp [natToDecCharsAux, h10, decValue, digitChar_val n h10]
      · intro c hc
        simp [natToDecCharsAux, h10] at hc
        simp [hc, digitChar_isDigit]
      · simp [natToDecCharsAux, h10]
    · have hdiv : n / 10 < fuel := by
        have h1 : n / 10 < n := Nat.div_lt_self (by omega) (by omega)
        omega
      obtain ⟨hv, hdig, hne⟩ := ih (n / 10) hdiv
      refine ⟨?_, ?_, ?_⟩
      · rw [show natToDecCharsAux (fuel + 1) n
            = natToDecCharsAux fuel (n / 10) ++ [digitChar (n % 10)] by
              simp [natToDecCharsAux, h10]]
        rw [decValue_append, hv, digitChar_val (n % 10) (Nat.mod_lt n
          (by omega))]
        omega
      · intro c hc
        simp only [natToDecCharsAux, h10, if_false, ite_false,
          List.mem_append, List.mem_singleton] at hc
        rcases hc with hc | hc
        · exact hdig c hc
        · simp [hc, digitChar_isDigit]
      · simp [natToDecCharsAux, h10]

/-- Decimal rendering evaluates back to the number. -/
theorem decValue_natToDecChars (n : Nat) :
    decValue (natToDecChars n) = n :=
  (natToDecCharsAux_spec (n + 1) n (by omega)).1

/-- Decimal rendering yields only digits. -/
theorem natToDecChars_digits (n : Nat) :
    ∀ c ∈ natToDecChars n, c.isDigit = true :=
  (natToDecCharsAux_spec (n + 1) n (by omega)).2.1

/-- Decimal rendering is never empty. -/
theorem natToDecChars_ne_nil (n : Nat) : natToDecChars n ≠ [] :=
  (natToDecCharsAux_spec (n + 1) n (by omega)).2.2

/-- A digit is not a separator, a sign, or a comma. -/
theorem isDigit_ne (c : Char) (h : c.isDigit = true) :
    c ≠ ':' ∧ c ≠ '+' ∧ c ≠ ',' := by
  refine ⟨?_, ?_, ?_⟩ <;> rintro rfl <;> simp [Char.isDigit] at h

/-- Stripping the sign from a digit string is the identity. -/
theorem stripPlus_digits (l : List Char)
    (h : ∀ c ∈ l, c.isDigit = true) : stripPlus l = l := by
  cases l with
  | nil => rfl
  | cons c cs =>
    unfold stripPlus
    split
    · rename_i heq
      obtain ⟨hc, -⟩ := List.cons_eq_cons.mp heq
      have := (isDigit_ne c (h c (by simp))).2.1
      exact absurd hc this
    · rfl

/-- Parsing inverts decimal rendering for every `u16` value. -/
theorem parseU16_natToDecStr (n : Nat) (h : n ≤ 65535) :
    parseU16 (natToDecStr n) = some n := by
  have hdata : (natToDecStr n).data = natToDecChars n := rfl
  have hstrip : stripPlus (natToDecChars n) = natToDecChars n :=
    stripPlus_digits _ (natToDecChars_digits n)
  have hempty : (natToDecChars n).isEmpty = false := by
    cases hc : natToDecChars n with
    | nil => exact absurd hc (natToDecChars_ne_nil n)
    | cons a l => rfl
  have hall : (natToDecChars n).all Char.isDigit = true :=
    List.all_eq_true.mpr (natToDecChars_digits n)
  simp [parseU16, hdata, hstrip, hempty, hall,
    decValue_natToDecChars n, h]

/-- Re-packing the character data of strings is the identity. -/
theorem map_mk_data (ls : List String) :
    ls.map (String.mk ∘ String.data) = ls := by
  induction ls with
  | nil => rfl
  | cons o t ih => simp [ih]

/-- The separator does not occur in decimal digits. -/
theorem colon_not_mem_dec (n : Nat) : ':' ∉ natToDecChars n := by
  intro hmem
  exact (isDigit_ne _ (natToDecChars_digits n _ hmem)).1 rfl

/-- A character outside the separator and every piece is outside the
intercalation. -/
theorem not_mem_intercalate (x : Char) (sep : List Char) :
    ∀ (ls : List (List Char)), x ∉ sep → (∀ l ∈ ls, x ∉ l) →
    x ∉ List.intercalate sep ls := by
  intro ls
  induction ls with
  | nil => intro _ _; simp [List.intercalate]
  | cons a t ih =>
    intro hsep hls
    cases t with
    | nil =>
      have : List.intercalate sep [a] = a := by simp [List.intercalate]
      rw [this]
      exact hls a (by simp)
    | cons b t2 =>
      have : List.intercalate sep (a :: b :: t2)
          = a ++ sep ++ List.intercalate sep (b :: t2) := by
        simp [List.intercalate, List.intersperse]
      rw [this]
      simp only [List.mem_append, not_or]
      exact ⟨⟨hls a (by simp), hsep⟩,
        ih hsep (fun l hl => hls l (by simp [hl]))⟩

/-- Splitting a three-piece colon join recovers the pieces. -/
theorem splitOn_colon3 (a b c : List Char) (ha : ':' ∉ a) (hb : ':' ∉ b)
    (hc : ':' ∉ c) :
    ([':'].intercalate [a, b, c]).splitOn ':' = [a, b, c] :=
  List.splitOn_intercalate [a, b, c] ':'
    (by intro l hl; simp at hl; rcases hl with rfl | rfl | rfl <;>
      assumption)
    (by simp)

/-- Splitting a two-piece colon join recovers the pieces. -/
theorem splitOn_colon2 (a b : List Char) (ha : ':' ∉ a) (hb : ':' ∉ b) :
    ([':'].intercalate [a, b]).splitOn ':' = [a, b] :=
  List.splitOn_intercalate [a, b] ':'
    (by intro l hl; simp at hl; rcases hl with rfl | rfl <;> assumption)
    (by simp)

/-- C8 (amended, Publish half together with the Volume half): the
parse-of-render round trip holds for every `Publish` whose `host_ip`
(when present) contains no `':'`, and for every `Volume` whose two paths
contain no `':'` and whose every option is one of the accepted option
words (which contain neither `':'` nor `','`).  The port bounds restate
the `u16` invariant the source's types already enforce.  Without these
conditions the round trip fails — see `C8_counterexample`. -/
theorem C8_roundtrip :
    (∀ p : Publish,
      (∀ ip, p.host_ip = some ip → ':' ∉ ip.data) →
      p.host_port ≤ 65535 → p.machine_port ≤ 65535 →
      Publish.fromStr (Publish.render p) = .ok p) ∧
    (∀ v : Volume,
      ':' ∉ v.host_path.data → ':' ∉ v.machine_path.data →
      (∀ o ∈ v.opts, o ∈ allowedVolOpts) →
      Volume.fromStr (Volume.render v) = .ok v) := by
  constructor
  · rintro ⟨hip, hp, mp⟩ hno hhp hmp
    rcases hip with _ | ip
    · have hdata : (Publish.render ⟨none, hp, mp⟩).data
          = [':'].intercalate [natToDecChars hp, natToDecChars mp] := by
        simp [Publish.render, String.data_append, List.intercalate,
          List.intersperse, natToDecStr]
      have hsplit : rustSplit ':' (Publish.render ⟨none, hp, mp⟩)
          = [natToDecStr hp, natToDecStr mp] := by
        unfold rustSplit
        rw [hdata, splitOn_colon2 _ _ (colon_not_mem_dec hp)
          (colon_not_mem_dec mp)]
        rfl
      unfold Publish.fromStr
      rw [hsplit]
      simp [parseU16_natToDecStr hp hhp, parseU16_natToDecStr mp hmp]
    · have hnoip : ':' ∉ ip.data := hno ip rfl
      have hdata : (Publish.render ⟨some ip, hp, mp⟩).data
          = [':'].intercalate
              [ip.data, natToDecChars hp, natToDecChars mp] := by
        simp [Publish.render, String.data_append, List.intercalate,
          List.intersperse, natToDecStr]
      have hsplit : rustSplit ':' (Publish.render ⟨some ip, hp, mp⟩)
          = [ip, natToDecStr hp, natToDecStr mp] := by
        unfold rustSplit
        rw [hdata, splitOn_colon3 _ _ _ hnoip (colon_not_mem_dec hp)
          (colon_not_mem_dec mp)]
        rfl
      unfold Publish.fromStr
      rw [hsplit]
      simp [parseU16_natToDecStr hp hhp, parseU16_natToDecStr mp hmp]
  · rintro ⟨hostp, machp, opts⟩ hnoh hnom hopts
    rcases hoe : opts.isEmpty with _ | _
    · -- opts nonempty: three colon fields, the third a comma join
      have hopts_ne : opts ≠ [] := by
        cases opts
        · simp at hoe
        · simp
      have hallowed : ∀ o ∈ opts, ',' ∉ o.data ∧ ':' ∉ o.data := by
        intro o ho
        have := hopts o ho
        fin_cases this <;> constructor <;> decide
      have hjoin_no_colon : ':' ∉ (joinChar ',' opts).data := by
        show ':' ∉ List.intercalate [','] (opts.map String.data)
        apply not_mem_intercalate
        · decide
        · intro l hl
          obtain ⟨o, ho, rfl⟩ := List.mem_map.mp hl
          exact (hallowed o ho).2
      have hdata : (Volume.render ⟨hostp, machp, opts⟩).data
          = [':'].intercalate
              [hostp.data, machp.data, (joinChar ',' opts).data] := by
        simp [Volume.render, hoe, String.data_append, List.intercalate,
          List.intersperse]
      have hsplit : rustSplit ':' (Volume.render ⟨hostp, machp, opts⟩)
          = [hostp, machp, joinChar ',' opts] := by
        unfold rustSplit
        rw [hdata, splitOn_colon3 _ _ _ hnoh hnom hjoin_no_colon]
        rfl
      have hcomma : rustSplit ',' (joinChar ',' opts) = opts := by
        unfold rustSplit
        show ((List.intercalate [','] (opts.map String.data)).splitOn ','
          ).map String.mk = opts
        rw [List.splitOn_intercalate (opts.map String.data) ','
          (by intro l hl
              obtain ⟨o, ho, rfl⟩ := List.mem_map.mp hl
              exact (hallowed o ho).1)
          (by simpa using hopts_ne)]
        rw [List.map_map]
        exact map_mk_data opts
      have hall : opts.all (fun o => allowedVolOpts.contains o)
          = true :=
        List.all_eq_true.mpr (fun o ho => List.elem_iff.mpr (hopts o ho))
      unfold Volume.fromStr
      rw [hsplit]
      simp [hcomma, hall]
      exact fun x hx => hopts x hx
    · -- opts empty: two colon fields
      have hoe2 : opts = [] := by
        cases opts
        · rfl
        · simp at hoe
      subst hoe2
      have hdata : (Volume.render ⟨hostp, machp, []⟩).data
          = [':'].intercalate [hostp.data, machp.data] := by
        simp [Volume.render, String.data_append, List.intercalate,
          List.intersperse]
      have hsplit : rustSplit ':' (Volume.render ⟨hostp, machp, []⟩)
          = [hostp, machp] := by
        unfold rustSplit
        rw [hdata, splitOn_colon2 _ _ hnoh hnom]
        rfl
      unfold Volume.fromStr
      rw [hsplit]
      simp

/-- Witness for C8: concrete round trips through both parsers, matching
the source's own unit tests. -/
theorem C8_roundtrip_witness :
    Publish.fromStr (Publish.render ⟨some "127.0.0.1", 8080, 80⟩)
      = .ok ⟨some "127.0.0.1", 8080, 80⟩ ∧
    Volume.fromStr
        (Volume.render ⟨"/opt/data", "/data", ["ro", "volume-nocopy"]⟩)
      = .ok ⟨"/opt/data", "/data", ["ro", "volume-nocopy"]⟩ :=
  ⟨C8_roundtrip.1 ⟨some "127.0.0.1", 8080, 80⟩
    (by intro ip h; cases h; decide) (by decide) (by decide),
   C8_roundtrip.2 ⟨"/opt/data", "/data", ["ro", "volume-nocopy"]⟩
    (by decide) (by decide) (by decide)⟩

/-- Counterexample for C8 as frozen: the `Publish` value with IPv6-style
`host_ip = "::1"` renders to `"::1:80:80"`, which splits into five
fields, so parsing fails instead of reproducing the value. -/
theorem C8_counterexample :
    Publish.render ⟨some "::1", 80, 80⟩ = "::1:80:80" ∧
    Publish.fromStr "::1:80:80" = .error .InvalidFormat := by
  refine ⟨rfl, rfl⟩
